import Mathlib

/-!
Verification development for the TypeSage repository.

Part 1 embeds the frontend persistence layer
(src/frontend/src/utils/storage.ts): the `StorageManager` wrapper around
localStorage and the `VisualizationStateManager` built on top of it.

JavaScript runtime values that flow through this layer are modelled by the
inductive `JsValue`.  Composite objects are represented opaquely where their
structure is irrelevant; `jUnserializable` stands for a value on which
JSON.stringify throws (cyclic object, BigInt).  Raw localStorage cells hold
strings; we model a cell as `RawItem`: either the serialization of a
`JsValue` (`RawItem.ok v`, with JSON.parse recovering `v`) or a string that
JSON.parse rejects (`RawItem.bad`).  This abstracts the round-trip law
JSON.parse (JSON.stringify v) = v without re-implementing JSON text.
-/

namespace TypeSage

inductive JsValue where
  | jUndef : JsValue
  | jNull : JsValue
  | jBool : Bool → JsValue
  | jNum : Int → JsValue
  | jStr : String → JsValue
  | jUnserializable : JsValue
  deriving DecidableEq

/-- JavaScript truthiness of a `JsValue` (`undefined`, `null`, `false`,
`0` and the empty string are falsy; objects are truthy). -/
def JsValue.truthy : JsValue → Bool
  | .jUndef => false
  | .jNull => false
  | .jBool b => b
  | .jNum n => n != 0
  | .jStr s => s != ""
  | .jUnserializable => true

inductive RawItem where
  | ok (v : JsValue)
  | bad (s : String)
  deriving DecidableEq

/-- JSON.parse of a raw localStorage cell: succeeds exactly on cells that
were written as the serialization of a value. -/
def parseRaw : RawItem → Option JsValue
  | .ok v => some v
  | .bad _ => none

/-- JSON.stringify: throws (`none`) on unserializable values; `undefined`
serializes to the unparseable cell "undefined" (setItem coerces it). -/
def stringifyJs : JsValue → Option RawItem
  | .jUnserializable => none
  | .jUndef => some (.bad "undefined")
  | v => some (.ok v)

/-- The localStorage backing store: an association list of cells plus a
`broken` flag modelling an environment where setItem throws (quota
exceeded / storage disabled). -/
structure Store where
  items : List (String × RawItem)
  broken : Bool
  deriving DecidableEq

def Store.getItem (st : Store) (k : String) : Option RawItem :=
  (st.items.find? (fun p => p.1 == k)).map (fun p => p.2)

def Store.setRaw (st : Store) (k : String) (r : RawItem) : Store :=
  { st with items := (k, r) :: st.items.filter (fun p => !(p.1 == k)) }

/-- `defaultValue || null` from storage.ts: the provided default when it is
truthy, JS `null` otherwise (also when no default was provided). -/
def jsOrNull (d : Option JsValue) : JsValue :=
  match d with
  | some v => if v.truthy then v else .jNull
  | none => .jNull

/-- `value || undefined` used by restoreState for optional fields. -/
def jsOrUndef (v : JsValue) : JsValue :=
  if v.truthy then v else .jUndef

namespace StorageManager

/-- StorageManager.set (storage.ts lines 18-27): try/catch around
JSON.stringify + setItem; returns false instead of raising. -/
def set (st : Store) (k : String) (v : JsValue) : Bool × Store :=
  match stringifyJs v with
  | none => (false, st)
  | some r => if st.broken then (false, st) else (true, st.setRaw k r)

/-- StorageManager.get (storage.ts lines 29-41): try/catch around getItem +
JSON.parse; missing or unparseable cells yield `defaultValue || null`. -/
def get (st : Store) (k : String) (d : Option JsValue) : JsValue :=
  match st.getItem k with
  | none => jsOrNull d
  | some r =>
    match parseRaw r with
    | some v => v
    | none => jsOrNull d

/-- StorageManager.isAvailable: probes setItem inside try/catch. -/
def isAvailable (st : Store) : Bool := !st.broken

end StorageManager

/-- Storage keys from storage.ts (STORAGE_KEYS). -/
def KEY_ACTIVE_TAB : String := "typesage_visualization_active_tab"

def KEY_AST_DATA : String := "typesage_visualization_ast_data"

def KEY_SYMBOL_DATA : String := "typesage_visualization_symbol_data"

def KEY_AST_VIEW_STATE : String := "typesage_visualization_ast_view_state"

def KEY_SYMBOL_VIEW_STATE : String := "typesage_visualization_symbol_view_state"

def KEY_LAST_CODE_HASH : String := "typesage_visualization_last_code_hash"

def KEY_LAST_SAVED : String := "typesage_visualization_last_saved"

/-- The VisualizationState record returned by restoreState; absent optional
fields are `jUndef`. -/
structure VisualizationState where
  activeTab : JsValue
  codeHash : JsValue
  astData : JsValue
  symbolTableData : JsValue
  astViewState : JsValue
  symbolViewState : JsValue
  lastSaved : JsValue
  deriving DecidableEq

/-- JS strict equality `v === s` against a string primitive. -/
def strictEqStr (v : JsValue) (s : String) : Bool := v == JsValue.jStr s

namespace VisualizationStateManager

/-- `(this.storage.get(KEY, 'ast') as ...) || 'ast'` from restoreState. -/
def activeTabValue (st : Store) : JsValue :=
  let v := StorageManager.get st KEY_ACTIVE_TAB (some (.jStr "ast"))
  if v.truthy then v else .jStr "ast"

/-- VisualizationStateManager.restoreState (storage.ts lines 287-311).
Returns `none` when localStorage is unavailable; when a current code hash is
supplied and a *truthy* stored hash strictly differs from it, returns only
the active tab and the current hash (stale data branch). -/
def restoreState (st : Store) (currentCodeHash : Option String) :
    Option VisualizationState :=
  if st.broken then none
  else
    let lastCodeHash := StorageManager.get st KEY_LAST_CODE_HASH none
    let mismatch :=
      match currentCodeHash with
      | some c => (c != "") && lastCodeHash.truthy && !(strictEqStr lastCodeHash c)
      | none => false
    if mismatch then
      some { activeTab := activeTabValue st
             codeHash := match currentCodeHash with
               | some c => .jStr c
               | none => .jUndef
             astData := .jUndef
             symbolTableData := .jUndef
             astViewState := .jUndef
             symbolViewState := .jUndef
             lastSaved := .jUndef }
    else
      some { activeTab := activeTabValue st
             codeHash := jsOrUndef lastCodeHash
             astData := StorageManager.get st KEY_AST_DATA none
             symbolTableData := StorageManager.get st KEY_SYMBOL_DATA none
             astViewState := jsOrUndef (StorageManager.get st KEY_AST_VIEW_STATE none)
             symbolViewState := jsOrUndef (StorageManager.get st KEY_SYMBOL_VIEW_STATE none)
             lastSaved := jsOrUndef (StorageManager.get st KEY_LAST_SAVED none) }

/-- VisualizationStateManager.hasCachedData (storage.ts lines 350-356). -/
def hasCachedData (st : Store) (codeHash : String) : Bool :=
  strictEqStr (StorageManager.get st KEY_LAST_CODE_HASH none) codeHash
    && (StorageManager.get st KEY_AST_DATA none != JsValue.jNull
        || StorageManager.get st KEY_SYMBOL_DATA none != JsValue.jNull)

end VisualizationStateManager

/-!
Part 2: the Analysis Cache & Semi-Parametric Memory Engine.  The backend
implementing it is not part of the checked-in sources (only its frontend
callers are), so each component below is modelled from the specification.
-/

/-- Modelled from the spec: the Fingerprinter's digest (spec section 4.1).
The backend hash function is missing from the sources; an executable
64-bit polynomial rolling hash stands in for the opaque fixed-length
digest. -/
def digestString (s : String) : Nat :=
  s.data.foldl (fun h c => (h * 131 + c.toNat) % 2 ^ 64) 5381

/-- Modelled from the spec: flag canonicalization (spec section 4.1,
"sort by option name" before hashing). -/
def canonicalFlags (flags : List String) : List String :=
  flags.insertionSort (fun a b => a ≤ b)

/-- Modelled from the spec: `Fingerprint(source, flags)` (spec section 4.1),
a pure digest of the source text and the canonicalized option flags. -/
def fingerprint (text : String) (flags : List String) : Nat :=
  digestString (text ++ "\x00" ++ String.intercalate "\x00" (canonicalFlags flags))

/-- Modelled from the spec: expressions of the AST handed to the
StaticAnalyzer by the external `Parse` capability (spec sections 4.2, 6). -/
inductive PyExpr where
  | name (s : String)
  | intLit (n : Int)
  | strLit (s : String)
  | binop (l r : PyExpr)
  | call (f a : PyExpr)
  deriving DecidableEq

/-- Identifier reads occurring in an expression, left to right. -/
def PyExpr.reads : PyExpr → List String
  | .name s => [s]
  | .intLit _ => []
  | .strLit _ => []
  | .binop l r => l.reads ++ r.reads
  | .call f a => f.reads ++ a.reads

/-- Rendering of an expression, used as the short surrounding-statement
context snippet captured for unresolved identifiers (spec section 4.2). -/
def PyExpr.render : PyExpr → String
  | .name s => s
  | .intLit n => toString n
  | .strLit s => "\"" ++ s ++ "\""
  | .binop l r => l.render ++ " + " ++ r.render
  | .call f a => f.render ++ "(" ++ a.render ++ ")"

/-- Modelled from the spec: statements of the parsed AST; sequencing is a
binary constructor so that function bodies need no nested lists. -/
inductive PyStmt where
  | skip
  | seq (a b : PyStmt)
  | assign (target : String) (e : PyExpr)
  | ret (e : PyExpr)
  | exprStmt (e : PyExpr)
  | funcDef (nm : String) (params : List String) (body : PyStmt)
  deriving DecidableEq

/-- Modelled from the spec: the fixed built-in symbol set consulted at the
root of the scope chain (spec section 4.2). -/
def builtins : List String :=
  ["print", "len", "sum", "range", "abs", "min", "max", "int", "str",
   "float", "bool", "list", "dict", "set", "tuple"]

/-- Walks the scope chain (innermost scope first, module scope last, then
the built-in set) looking for a declared symbol. -/
def resolves (scopes : List (List String)) (n : String) : Bool :=
  scopes.any (fun sc => sc.contains n) || builtins.contains n

/-- Identifier reads of `e` that match no declared symbol, paired with the
context snippet of the enclosing statement's expression. -/
def unresolvedInExpr (scopes : List (List String)) (e : PyExpr) :
    List (String × String) :=
  (e.reads.filter (fun n => !resolves scopes n)).map (fun n => (n, e.render))

/-- Binds a name in the current (innermost) scope. -/
def bindName : List (List String) → String → List (List String)
  | [], t => [[t]]
  | sc :: rest, t => (t :: sc) :: rest

/-- Modelled from the spec: the StaticAnalyzer traversal (spec section 4.2).
One pass over the AST: entering a function body pushes a fresh scope
holding the parameters (the function name is bound in the enclosing scope
first), assignments check reads before binding the target, and every read
that the scope chain cannot resolve is recorded as unresolved. -/
def analyzeStmt : List (List String) → PyStmt →
    List (List String) × List (String × String)
  | scopes, .skip => (scopes, [])
  | scopes, .seq a b =>
    let r1 := analyzeStmt scopes a
    let r2 := analyzeStmt r1.1 b
    (r2.1, r1.2 ++ r2.2)
  | scopes, .assign t e =>
    (bindName scopes t, unresolvedInExpr scopes e)
  | scopes, .ret e => (scopes, unresolvedInExpr scopes e)
  | scopes, .exprStmt e => (scopes, unresolvedInExpr scopes e)
  | scopes, .funcDef nm params body =>
    let scopes1 := bindName scopes nm
    let inner := analyzeStmt (params :: scopes1) body
    (scopes1, inner.2)

/-- Unresolved identifiers (with context snippets) of a whole program,
analyzed from a fresh module scope. -/
def staticAnalyze (program : PyStmt) : List (String × String) :=
  (analyzeStmt [[]] program).2

/-- The AST of `def f(a):\n    return a + b`, the spec's scope-resolution
test program, as produced by the external parse capability. -/
def exampleProgram : PyStmt :=
  .funcDef "f" ["a"] (.ret (.binop (.name "a") (.name "b")))

/-!
The ResponseInterpreter (spec section 4.3): extraction, repair, structured
parse and regex-style fallback over the external service's free-text reply.
The quote, brace and backtick delimiters that the scanners below branch on
are bound to named constants, written via their code points.
-/

def dquoteChar : Char := Char.ofNat 34

def squoteChar : Char := Char.ofNat 39

def backtickChar : Char := Char.ofNat 96

def lbraceChar : Char := Char.ofNat 123

def rbraceChar : Char := Char.ofNat 125

/-- Provenance of a type assertion (spec section 3). -/
inductive Provenance where
  | memory
  | externalInference
  | fallbackHeuristic
  deriving DecidableEq

/-- TypeAssertion (spec section 3); confidence is a rational in [0,1]. -/
structure TypeAssertion where
  identifier : String
  inferredType : String
  confidence : ℚ
  explanation : Option String
  provenance : Provenance
  deriving DecidableEq

/-- Modelled from the spec: the interpreter's result sum type
`Structured | Fallback | Failed(reason)` (spec section 9). -/
inductive InterpretResult where
  | structured (asserts : List TypeAssertion)
  | fallback (asserts : List TypeAssertion)
  | failed (reason : String)
  deriving DecidableEq

/-- Fixed default confidence (0.6) for external replies that carry none
(spec section 4.3, stage 3).  Written with `mkRat` so the kernel can
evaluate it. -/
def defaultExternalConfidence : ℚ := mkRat 6 10

/-- Fixed lower confidence (0.3) of fallback-heuristic assertions
(spec section 4.3, stage 4). -/
def fallbackConfidence : ℚ := mkRat 3 10

/-- Fixed reuse threshold (0.75) for memory hits (spec section 4.4). -/
def reuseThreshold : ℚ := mkRat 3 4

/-- Clamp a confidence into the invariant interval [0,1] (spec section 3). -/
def clamp01 (c : ℚ) : ℚ := max 0 (min 1 c)

def isIdentChar (c : Char) : Bool := c.isAlphanum || c = '_'

/-- Does the text start with a triple-backtick fence? -/
def startsWithFence (cs : List Char) : Bool :=
  match cs with
  | a :: b :: c :: _ => a = backtickChar && b = backtickChar && c = backtickChar
  | _ => false

/-- Stage 1 helper: the text after the first code fence, if any. -/
def afterFence : List Char → Option (List Char)
  | [] => none
  | c :: rest =>
    if startsWithFence (c :: rest) then some (rest.drop 2) else afterFence rest

/-- Stage 1 helper: the text before the next code fence. -/
def untilFence : List Char → List Char
  | [] => []
  | c :: rest =>
    if startsWithFence (c :: rest) then [] else c :: untilFence rest

/-- Stage 1 helper: drop a language tag such as `json` right after a fence. -/
def dropLangTag (cs : List Char) : List Char :=
  (cs.dropWhile Char.isAlpha).dropWhile Char.isWhitespace

/-- Stage 1 helper: from an opening brace, keep characters up to the
balanced closing brace, counting depth and tolerating braces inside
double-quoted string literals (spec section 4.3, stage 1). -/
def scanBalanced : List Char → Nat → Bool → List Char
  | [], _, _ => []
  | c :: rest, depth, inStr =>
    if inStr then
      if c = dquoteChar then c :: scanBalanced rest depth false
      else if c = '\\' then
        match rest with
        | d :: rest2 => c :: d :: scanBalanced rest2 depth true
        | [] => [c]
      else c :: scanBalanced rest depth inStr
    else if c = dquoteChar then c :: scanBalanced rest depth true
    else if c = lbraceChar then c :: scanBalanced rest (depth + 1) inStr
    else if c = rbraceChar then
      if depth = 1 then [c] else c :: scanBalanced rest (depth - 1) inStr
    else c :: scanBalanced rest depth inStr

/-- Stage 1 helper: locate the first `\x7b` and take its balanced extent. -/
def braceScan (cs : List Char) : List Char :=
  scanBalanced (cs.dropWhile (fun c => !(c = lbraceChar))) 0 false

/-- Modelled from the spec: stage 1 extraction (spec section 4.3) — prefer
fenced code-block content, otherwise scan the raw text for the first
balanced-brace object. -/
def extractCandidate (raw : String) : List Char :=
  match afterFence raw.data with
  | some rest => braceScan (dropLangTag (untilFence rest))
  | none => braceScan raw.data

/-- Stage 2 pass 1: convert single quotes outside double-quoted strings to
double quotes (spec section 4.3, stage 2). -/
def squoteToDquote : List Char → Bool → List Char
  | [], _ => []
  | c :: rest, inD =>
    if c = dquoteChar then c :: squoteToDquote rest !inD
    else if c = squoteChar && !inD then dquoteChar :: squoteToDquote rest inD
    else c :: squoteToDquote rest inD

/-- Stage 2 pass 2 (fuel-driven scan): wrap bare object keys — an
identifier that follows `\x7b` or `,` and precedes `:` — in double quotes
(spec section 4.3, stage 2).  Double-quoted runs are copied verbatim. -/
def quoteKeysF : Nat → List Char → Bool → List Char
  | 0, cs, _ => cs
  | _ + 1, [], _ => []
  | fuel + 1, c :: rest, expectKey =>
    if c = dquoteChar then
      let strPart := rest.takeWhile (fun d => !(d = dquoteChar))
      let rest2 := rest.drop strPart.length
      match rest2 with
      | d :: rest3 => c :: (strPart ++ d :: quoteKeysF fuel rest3 false)
      | [] => c :: strPart
    else if expectKey && (c.isAlpha || c = '_') then
      let identRest := rest.takeWhile isIdentChar
      let rest2 := rest.drop identRest.length
      let afterWs := rest2.dropWhile Char.isWhitespace
      if afterWs.headD ' ' = ':' then
        dquoteChar :: c :: (identRest ++ dquoteChar :: quoteKeysF fuel rest2 false)
      else c :: (identRest ++ quoteKeysF fuel rest2 false)
    else if c = lbraceChar || c = ',' then c :: quoteKeysF fuel rest true
    else if c.isWhitespace then c :: quoteKeysF fuel rest expectKey
    else c :: quoteKeysF fuel rest false

def quoteBareKeys (cs : List Char) : List Char :=
  quoteKeysF (cs.length + 1) cs false

/-- Stage 2 pass 3 helper: drop a block comment body up to `*/`. -/
def dropBlockComment : List Char → List Char
  | [] => []
  | c :: rest =>
    if c = '*' then
      match rest with
      | d :: rest2 => if d = '/' then rest2 else dropBlockComment rest
      | [] => []
    else dropBlockComment rest

/-- Stage 2 pass 3 (fuel-driven scan): strip `//` line comments and
`/* */` block comments outside double-quoted strings. -/
def stripCommentsF : Nat → List Char → List Char
  | 0, cs => cs
  | _ + 1, [] => []
  | fuel + 1, c :: rest =>
    if c = dquoteChar then
      let strPart := rest.takeWhile (fun d => !(d = dquoteChar))
      let rest2 := rest.drop strPart.length
      match rest2 with
      | d :: rest3 => c :: (strPart ++ d :: stripCommentsF fuel rest3)
      | [] => c :: strPart
    else if c = '/' then
      match rest with
      | d :: rest2 =>
        if d = '/' then stripCommentsF fuel (rest2.dropWhile (fun x => !(x = '\n')))
        else if d = '*' then stripCommentsF fuel (dropBlockComment rest2)
        else c :: stripCommentsF fuel rest
      | [] => [c]
    else c :: stripCommentsF fuel rest

def stripComments (cs : List Char) : List Char :=
  stripCommentsF (cs.length + 1) cs

/-- Stage 2 pass 4 (fuel-driven scan): remove a comma whose next
significant character closes an object or array, skipping string runs. -/
def stripTrailingCommasF : Nat → List Char → List Char
  | 0, cs => cs
  | _ + 1, [] => []
  | fuel + 1, c :: rest =>
    if c = dquoteChar then
      let strPart := rest.takeWhile (fun d => !(d = dquoteChar))
      let rest2 := rest.drop strPart.length
      match rest2 with
      | d :: rest3 => c :: (strPart ++ d :: stripTrailingCommasF fuel rest3)
      | [] => c :: strPart
    else if c = ',' then
      let nxt := (rest.dropWhile Char.isWhitespace).headD ' '
      if nxt = rbraceChar || nxt = ']' then stripTrailingCommasF fuel rest
      else c :: stripTrailingCommasF fuel rest
    else c :: stripTrailingCommasF fuel rest

def stripTrailingCommas (cs : List Char) : List Char :=
  stripTrailingCommasF (cs.length + 1) cs

/-- Modelled from the spec: stage 2 repair — the fixed normalization
sequence of spec section 4.3: quote conversion, bare-key quoting, comment
stripping, trailing-comma removal. -/
def repair (cs : List Char) : List Char :=
  stripTrailingCommas (stripComments (quoteBareKeys (squoteToDquote cs false)))

/-- Generic parsed object values for stage 3 (spec section 4.3: "attempt to
parse the repaired text as a generic object").  Arrays are not needed by
the expected fields and are rejected, sending such replies to stage 4. -/
inductive Json where
  | jstr (s : String)
  | jnum (q : ℚ)
  | jbool (b : Bool)
  | jnull
  | jobj (fields : List (String × Json))

def dropWs (cs : List Char) : List Char := cs.dropWhile Char.isWhitespace

/-- Parse a double-quoted string literal (escape-free model). -/
def parseStringLit : List Char → Option (String × List Char)
  | [] => none
  | c :: rest =>
    if c = dquoteChar then
      let content := rest.takeWhile (fun d => !(d = dquoteChar))
      let rest2 := rest.drop content.length
      match rest2 with
      | d :: rest3 => if d = dquoteChar then some (⟨content⟩, rest3) else none
      | [] => none
    else none

def digitsToNat (ds : List Char) : Nat :=
  ds.foldl (fun n d => n * 10 + (d.toNat - 48)) 0

/-- Parse a (possibly signed, possibly fractional) decimal number, built
with `mkRat` so the kernel can evaluate it. -/
def parseNumber (cs : List Char) : Option (ℚ × List Char) :=
  let neg := cs.headD ' ' = '-'
  let cs1 := if neg then cs.drop 1 else cs
  let intPart := cs1.takeWhile Char.isDigit
  if intPart.isEmpty then none
  else
    let rest1 := cs1.drop intPart.length
    let withFrac :=
      if rest1.headD ' ' = '.' then
        let fracPart := (rest1.drop 1).takeWhile Char.isDigit
        let denom : Nat := 10 ^ fracPart.length
        (mkRat ((digitsToNat intPart * denom + digitsToNat fracPart : Nat) : Int) denom,
          rest1.drop (1 + fracPart.length))
      else (mkRat (digitsToNat intPart) 1, rest1)
    some (if neg then (-withFrac.1, withFrac.2) else withFrac)

def startsWithWord (cs : List Char) (w : List Char) : Bool :=
  cs.take w.length = w

mutual

/-- Recursive-descent parse of a generic value, driven by fuel. -/
def parseValueF : Nat → List Char → Option (Json × List Char)
  | 0, _ => none
  | fuel + 1, cs =>
    let cs1 := dropWs cs
    match cs1 with
    | [] => none
    | c :: rest =>
      if c = dquoteChar then
        (parseStringLit cs1).map (fun p => (Json.jstr p.1, p.2))
      else if c = lbraceChar then parseObjF fuel rest
      else if c.isDigit || c = '-' then
        (parseNumber cs1).map (fun p => (Json.jnum p.1, p.2))
      else if startsWithWord cs1 "true".data then some (Json.jbool true, cs1.drop 4)
      else if startsWithWord cs1 "false".data then some (Json.jbool false, cs1.drop 5)
      else if startsWithWord cs1 "null".data then some (Json.jnull, cs1.drop 4)
      else none

/-- Parse an object body (after the opening brace). -/
def parseObjF : Nat → List Char → Option (Json × List Char)
  | 0, _ => none
  | fuel + 1, cs =>
    let cs1 := dropWs cs
    match cs1 with
    | [] => none
    | c :: rest =>
      if c = rbraceChar then some (Json.jobj [], rest)
      else parseMembersF fuel cs1 []

/-- Parse the comma-separated members of an object. -/
def parseMembersF : Nat → List Char → List (String × Json) →
    Option (Json × List Char)
  | 0, _, _ => none
  | fuel + 1, cs, acc =>
    match parseStringLit (dropWs cs) with
    | none => none
    | some (k, r1) =>
      match dropWs r1 with
      | c :: r3 =>
        if c = ':' then
          match parseValueF fuel r3 with
          | none => none
          | some (v, r4) =>
            match dropWs r4 with
            | d :: r6 =>
              if d = ',' then parseMembersF fuel r6 (acc ++ [(k, v)])
              else if d = rbraceChar then some (Json.jobj (acc ++ [(k, v)]), r6)
              else none
            | [] => none
        else none
      | [] => none

end

/-- Parse the repaired candidate as a generic value. -/
def parseJson (cs : List Char) : Option Json :=
  (parseValueF (2 * cs.length + 8) cs).map (fun p => p.1)

def Json.lookupField : Json → String → Option Json
  | .jobj fs, k => (fs.find? (fun p => p.1 == k)).map (fun p => p.2)
  | _, _ => none

/-- The confidence carried by the parsed object, clamped into [0,1];
a fixed documented default when absent (spec sections 3 and 4.3). -/
def confidenceOf (obj : Json) : ℚ :=
  match obj.lookupField "confidence" with
  | some (.jnum q) => clamp01 q
  | _ => defaultExternalConfidence

/-- The optional per-identifier explanation field. -/
def explanationFor (obj : Json) (ident : String) : Option String :=
  match obj.lookupField "explanations" with
  | some e =>
    match e.lookupField ident with
    | some (.jstr s) => some s
    | _ => none
  | none => none

/-- The identifier-to-type mapping: the `inferences` field when present,
otherwise the object itself minus the reserved fields. -/
def mappingOf (obj : Json) : List (String × Json) :=
  match obj.lookupField "inferences" with
  | some (.jobj fs) => fs
  | _ =>
    match obj with
    | .jobj fs => fs.filter (fun p => !(p.1 == "confidence" || p.1 == "explanations"))
    | _ => []

/-- Modelled from the spec: stage 3 structured parse (spec section 4.3) —
map the expected fields into external-inference TypeAssertions; fails
(`none`) when parsing fails or no usable entry remains. -/
def stage3 (cs : List Char) : Option (List TypeAssertion) :=
  match parseJson cs with
  | none => none
  | some obj =>
    let conf := confidenceOf obj
    let asserts := (mappingOf obj).filterMap (fun p =>
      match p.2 with
      | .jstr ty =>
        some { identifier := p.1
               inferredType := ty
               confidence := conf
               explanation := explanationFor obj p.1
               provenance := Provenance.externalInference }
      | _ => none)
    if asserts.isEmpty then none else some asserts

/-- Stage 4 helper (fuel-driven scan): split a line into identifier tokens
and `:` tokens; every other character separates. -/
def lineTokensF : Nat → List Char → List String
  | 0, _ => []
  | _ + 1, [] => []
  | fuel + 1, c :: rest =>
    if isIdentChar c then
      let run := rest.takeWhile isIdentChar
      (⟨c :: run⟩ : String) :: lineTokensF fuel (rest.drop run.length)
    else if c = ':' then ":" :: lineTokensF fuel rest
    else lineTokensF fuel rest

def lineTokens (cs : List Char) : List String :=
  lineTokensF (cs.length + 1) cs

/-- Stage 4 helper: scan a token list for `identifier is a/an type` and
`identifier : type` shaped phrases (spec section 4.3, stage 4). -/
def scanTokens : List String → List (String × String)
  | t1 :: t2 :: t3 :: t4 :: rest2 =>
    if t2 = "is" && (t3 = "a" || t3 = "an") && !(t1 = ":") && !(t4 = ":") then
      (t1, t4) :: scanTokens rest2
    else if t2 = ":" && !(t1 = ":") && !(t3 = ":") then
      (t1, t3) :: scanTokens (t4 :: rest2)
    else scanTokens (t2 :: t3 :: t4 :: rest2)
  | [t1, t2, t3] =>
    if t2 = ":" && !(t1 = ":") && !(t3 = ":") then [(t1, t3)] else scanTokens [t2, t3]
  | _ => []

/-- Split a character stream into lines. -/
def splitLinesAux : List Char → List Char → List (List Char)
  | [], acc => [acc.reverse]
  | c :: rest, acc =>
    if c = '\n' then acc.reverse :: splitLinesAux rest []
    else splitLinesAux rest (c :: acc)

/-- Modelled from the spec: stage 4 fallback extraction — line-by-line
pattern matching emitting low-confidence fallback-heuristic assertions. -/
def fallbackAssertions (raw : String) : List TypeAssertion :=
  ((splitLinesAux raw.data []).map (fun line =>
    (scanTokens (lineTokens line)).map (fun p =>
      { identifier := p.1
        inferredType := p.2
        confidence := fallbackConfidence
        explanation := none
        provenance := Provenance.fallbackHeuristic : TypeAssertion }))).flatten

/-- Modelled from the spec: the whole ResponseInterpreter (spec section
4.3): stages 1-3, then stage 4, then an explicit failure marker with a
diagnostic reason.  Totality of this function embeds the guarantee that
the component never raises past its boundary. -/
def interpret (raw : String) : InterpretResult :=
  match stage3 (repair (extractCandidate raw)) with
  | some l => InterpretResult.structured l
  | none =>
    let fl := fallbackAssertions raw
    if fl.isEmpty then
      InterpretResult.failed "no recognizable type statements in response"
    else InterpretResult.fallback fl

/-- The assertions carried by an interpreter result. -/
def assertionsOf : InterpretResult → List TypeAssertion
  | .structured l => l
  | .fallback l => l
  | .failed _ => []

/-- Decidable form of the interpreter's boundary guarantee: a non-empty
assertion list or a failure marker with a non-empty diagnostic reason. -/
def resultWellFormed : InterpretResult → Bool
  | .structured l => !l.isEmpty
  | .fallback l => !l.isEmpty
  | .failed reason => !reason.isEmpty

/-- The spec's stage-2/3 fallback-parsing test input
`\x7b\x27x\x27: \x27int\x27, y: "str",\x7d`. -/
def rawStructuredExample : String :=
  "\x7b\x27x\x27: \x27int\x27, y: \"str\",\x7d"

/-- The spec's stage-4 fallback-parsing test input. -/
def rawFallbackExample : String := "x is a string, y is an integer"

/-!
The MemoryStore (spec section 4.4): signature derivation, exact-signature
lookup and read-modify-write recording, all modelled from the spec.
-/

/-- MemoryPattern (spec section 3); the wall-clock `lastUsed` stamp is not
modelled (no real time in the embedding). -/
structure MemoryPattern where
  signature : String
  inferredType : String
  confidence : ℚ
  hitCount : Nat
  deriving DecidableEq

abbrev MemoryStore := List MemoryPattern

/-- Index of an identifier among those already seen, extending the list on
first sight: the positional-placeholder assignment of spec section 4.4. -/
def seenIndex (seen : List String) (ident : String) : Nat × List String :=
  match seen.indexOf? ident with
  | some i => (i, seen)
  | none => (seen.length, seen ++ [ident])

/-- Modelled from the spec: signature normalization tokens (spec section
4.4) — identifiers become positional placeholders, number and string
literals become type markers, whitespace is dropped. -/
def sigTokensF : Nat → List Char → List String → List String
  | 0, _, _ => []
  | _ + 1, [], _ => []
  | fuel + 1, c :: rest, seen =>
    if c.isAlpha || c = '_' then
      let run := rest.takeWhile isIdentChar
      let p := seenIndex seen (⟨c :: run⟩ : String)
      ("ID" ++ toString p.1) :: sigTokensF fuel (rest.drop run.length) p.2
    else if c.isDigit then
      let run := rest.takeWhile (fun d => d.isDigit || d = '.')
      "NUM" :: sigTokensF fuel (rest.drop run.length) seen
    else if c = dquoteChar || c = squoteChar then
      let content := rest.takeWhile (fun d => !(d = c))
      "STR" :: sigTokensF fuel (rest.drop (content.length + 1)) seen
    else if c.isWhitespace then sigTokensF fuel rest seen
    else (String.singleton c) :: sigTokensF fuel rest seen

/-- Modelled from the spec: `Signature(contextSnippet)` (spec section 4.4),
so structurally similar but textually different snippets share one
signature. -/
def signatureOf (ctx : String) : String :=
  String.intercalate " " (sigTokensF (ctx.data.length + 1) ctx.data [])

/-- Modelled from the spec: `Lookup(signature)` — exact signature match
only, confidence returned as stored (spec section 4.4). -/
def lookupPattern (ms : MemoryStore) (sig : String) : Option MemoryPattern :=
  ms.find? (fun p => p.signature == sig)

/-- Weighted average favoring the higher observed confidence
(spec section 4.4). -/
def blendConfidence (oldC newC : ℚ) : ℚ :=
  (2 * max oldC newC + min oldC newC) / 3

/-- Modelled from the spec: `Record(signature, inferredType, confidence)` —
update confidence by the favoring average and bump hitCount on an existing
entry, insert fresh with hitCount 1 otherwise (spec section 4.4). -/
def recordPattern (ms : MemoryStore) (sig ty : String) (conf : ℚ) : MemoryStore :=
  match lookupPattern ms sig with
  | some _ =>
    ms.map (fun p =>
      if p.signature == sig then
        { p with confidence := blendConfidence p.confidence conf,
                 hitCount := p.hitCount + 1 }
      else p)
  | none => { signature := sig, inferredType := ty, confidence := conf, hitCount := 1 } :: ms

/-- All stored confidences lie in [0,1] (spec section 3 invariant set). -/
def StoreOK (ms : MemoryStore) : Prop :=
  ∀ p ∈ ms, 0 ≤ p.confidence ∧ p.confidence ≤ 1

/-!
The per-identifier pipeline step (spec sections 4.4 and 4.6): memory
lookup, threshold policy, selective external inference.  The external
generative capability `Infer` is an oracle parameter returning `none` on
timeout or transport error.
-/

/-- Outcome of resolving one unresolved identifier: the assertion (if any),
how many external calls were made, and the updated memory store. -/
structure ResolveOutcome where
  assertion : Option TypeAssertion
  externalCalls : Nat
  store : MemoryStore
  deriving DecidableEq

/-- The prompt sent to the external service for one identifier. -/
def promptFor (ident ctx : String) : String :=
  "Infer the type of " ++ ident ++ " in: " ++ ctx

/-- Modelled from the spec: the external-inference arm — one call to the
oracle, interpretation of its reply, recording of the interpreted result
(spec sections 4.4 and 4.6).  A failed call or reply yields a degraded
outcome with no assertion. -/
def externalResolve (ms : MemoryStore) (infer : String → Option String)
    (ident ctx sig : String) : ResolveOutcome :=
  match infer (promptFor ident ctx) with
  | none => { assertion := none, externalCalls := 1, store := ms }
  | some raw =>
    match (assertionsOf (interpret raw)).find? (fun a => a.identifier == ident) with
    | some a =>
      { assertion := some { a with identifier := ident }
        externalCalls := 1
        store := recordPattern ms sig a.inferredType a.confidence }
    | none => { assertion := none, externalCalls := 1, store := ms }

/-- Modelled from the spec: per-identifier resolution (spec section 4.4
policy): a memory hit at or above the reuse threshold is used directly
with provenance `memory` and no external call (the reuse also bumps the
pattern's hitCount); otherwise the external arm runs. -/
def resolveIdentifier (ms : MemoryStore) (infer : String → Option String)
    (ident ctx : String) : ResolveOutcome :=
  match lookupPattern ms (signatureOf ctx) with
  | some p =>
    if reuseThreshold ≤ p.confidence then
      { assertion := some { identifier := ident
                            inferredType := p.inferredType
                            confidence := p.confidence
                            explanation := none
                            provenance := Provenance.memory }
        externalCalls := 0
        store := recordPattern ms (signatureOf ctx) p.inferredType p.confidence }
    else externalResolve ms infer ident ctx (signatureOf ctx)
  | none => externalResolve ms infer ident ctx (signatureOf ctx)

/-!
The ResultCache and the orchestrating pipeline (spec sections 4.5, 4.6):
a content-addressed cache of AnalysisResults keyed by fingerprint, checked
before analysis and written through after it.
-/

/-- AnalysisResult (spec section 3), content of one analysis keyed by its
fingerprint; the response wrapper carries the `cached` flag. -/
structure AnalysisResult where
  fp : Nat
  unresolvedIdents : List (String × String)
  asserts : List TypeAssertion
  errorMsg : Option String
  deriving DecidableEq

structure AnalyzeResponse where
  result : AnalysisResult
  cached : Bool
  deriving DecidableEq

/-- Process-wide shared state: the result cache and the memory store. -/
structure SysState where
  cache : List (Nat × AnalysisResult)
  memory : MemoryStore
  deriving DecidableEq

def cacheLookup (cache : List (Nat × AnalysisResult)) (fp : Nat) :
    Option AnalysisResult :=
  (cache.find? (fun p => p.1 == fp)).map (fun p => p.2)

/-- Resolve every unresolved identifier in order, threading the memory
store, collecting the obtained assertions. -/
def resolveAll (ms : MemoryStore) (infer : String → Option String)
    (unres : List (String × String)) : List TypeAssertion × MemoryStore :=
  unres.foldl
    (fun acc u =>
      let o := resolveIdentifier acc.2 infer u.1 u.2
      (acc.1 ++ (o.assertion.map (fun a => [a])).getD [], o.store))
    ([], ms)

/-- Modelled from the spec: the expensive compute path — parse, static
analysis, per-identifier memory/external resolution, merge (spec section
4.6).  A parse failure yields the deterministic empty-with-error result
rather than an exception. -/
def computeAnalysis (parse : String → Option PyStmt)
    (infer : String → Option String) (ms : MemoryStore)
    (code : String) (flags : List String) : AnalysisResult × MemoryStore :=
  let fp := fingerprint code flags
  match parse code with
  | none =>
    ({ fp := fp, unresolvedIdents := [], asserts := [],
       errorMsg := some "parse error" }, ms)
  | some ast =>
    let unres := staticAnalyze ast
    let r := resolveAll ms infer unres
    ({ fp := fp, unresolvedIdents := unres, asserts := r.1, errorMsg := none }, r.2)

/-- Modelled from the spec: `Analyze` (spec sections 4.5, 4.6, 6) —
fingerprint, cache check with short-circuit on hit, compute, write-through
on miss. -/
def analyze (parse : String → Option PyStmt) (infer : String → Option String)
    (st : SysState) (code : String) (flags : List String) :
    AnalyzeResponse × SysState :=
  let fp := fingerprint code flags
  match cacheLookup st.cache fp with
  | some r => ({ result := r, cached := true }, st)
  | none =>
    let c := computeAnalysis parse infer st.memory code flags
    ({ result := c.1, cached := false },
     { cache := (fp, c.1) :: st.cache, memory := c.2 })

/-!
The single-flight registry of the ResultCache (spec sections 4.5, 5, 9)
as a small concurrent transition system: states are the per-fingerprint
in-flight-future registry; events are interleaved actions of concurrent
callers.  A compute may start for a fingerprint only when the registry
has no entry for it; finishing freezes the entry at the computed result;
a caller can be delivered a result only once the entry is frozen.
-/

inductive FlightEntry where
  | inflight
  | done (r : AnalysisResult)
  deriving DecidableEq

abbrev Registry := List (Nat × FlightEntry)

inductive CacheEvent where
  | startCompute (fp : Nat)
  | finishCompute (fp : Nat) (r : AnalysisResult)
  | deliver (caller : Nat) (fp : Nat) (r : AnalysisResult)
  deriving DecidableEq

def regLookup (reg : Registry) (fp : Nat) : Option FlightEntry :=
  (reg.find? (fun p => p.1 == fp)).map (fun p => p.2)

def regSet (reg : Registry) (fp : Nat) (e : FlightEntry) : Registry :=
  (fp, e) :: reg.filter (fun p => !(p.1 == fp))

/-- Modelled from the spec: one guarded step of the single-flight registry
(spec section 4.5).  An inadmissible event (a second compute for a present
fingerprint, a delivery before completion) yields `none`. -/
def cacheStep (reg : Registry) : CacheEvent → Option Registry
  | .startCompute fp =>
    match regLookup reg fp with
    | none => some (regSet reg fp FlightEntry.inflight)
    | some _ => none
  | .finishCompute fp r =>
    match regLookup reg fp with
    | some FlightEntry.inflight => some (regSet reg fp (FlightEntry.done r))
    | _ => none
  | .deliver _ fp r =>
    match regLookup reg fp with
    | some (FlightEntry.done r2) => if r2 = r then some reg else none
    | _ => none

/-- Run an interleaving of caller events from a registry state. -/
def runTrace (reg : Registry) : List CacheEvent → Option Registry
  | [] => some reg
  | e :: tr =>
    match cacheStep reg e with
    | some reg2 => runTrace reg2 tr
    | none => none

/-- Number of compute executions for a fingerprint in a trace. -/
def countStarts (fp : Nat) (tr : List CacheEvent) : Nat :=
  tr.countP (fun e =>
    match e with
    | .startCompute fp2 => fp2 == fp
    | _ => false)

/-- A store whose stale visualization data (for hash "a") must not leak
when another hash is current. -/
def staleStore : Store :=
  { items := [(KEY_LAST_CODE_HASH, RawItem.ok (JsValue.jStr "a")),
              (KEY_AST_DATA, RawItem.ok (JsValue.jStr "tree"))],
    broken := false }

/-- A store holding only a stored code hash, used to exercise the stale
branch with a genuinely different current hash. -/
def freshHashStore : Store :=
  { items := [(KEY_LAST_CODE_HASH, RawItem.ok (JsValue.jStr "old"))],
    broken := false }

/-- A store with one parseable cell under key "k". -/
def oneCellStore : Store :=
  { items := [("k", RawItem.ok (JsValue.jStr "hello"))], broken := false }

/-- The empty, functioning store. -/
def emptyStore : Store := { items := [], broken := false }

/-- A concrete analysis result used to exercise the single-flight
registry. -/
def emptyResult : AnalysisResult :=
  { fp := 7, unresolvedIdents := [], asserts := [], errorMsg := none }

/-- A concrete admissible interleaving: one compute start, its completion,
then two concurrent callers receiving the frozen result. -/
def coalesceTrace : List CacheEvent :=
  [CacheEvent.startCompute 7, CacheEvent.finishCompute 7 emptyResult,
   CacheEvent.deliver 0 7 emptyResult, CacheEvent.deliver 1 7 emptyResult]

end TypeSage

namespace TypeSage

/-! Theorems.  Claims C9 and C10 concern storage.ts directly. -/

/-- C9 counterexample: in `staleStore` the stored last-code-hash is the
string "a", which exists and differs from the current hash "" passed to
restoreState; yet the returned state still carries the stale astData and
even reports codeHash "a" rather than the current hash, because the guard
`currentCodeHash && lastCodeHash && ...` is JS-truthiness based and an
empty current hash is falsy. -/
theorem restoreState_stale_counterexample :
    staleStore.getItem KEY_LAST_CODE_HASH = some (RawItem.ok (JsValue.jStr "a"))
    ∧ (("a" : String) != "") = true
    ∧ (VisualizationStateManager.restoreState staleStore (some "")).map
        VisualizationState.astData = some (JsValue.jStr "tree")
    ∧ (VisualizationStateManager.restoreState staleStore (some "")).map
        VisualizationState.codeHash = some (JsValue.jStr "a") := by
  decide

/-- C9 amended: when storage is available, the current hash is non-empty,
and the stored last-code-hash is truthy and strictly different from it,
restoreState returns only the active tab and the current hash, with no
astData and no symbolTableData; and hasCachedData returns true only when
the stored last-code-hash strictly equals the queried hash. -/
theorem restoreState_no_stale_data (st : Store) (c : String) :
    (st.broken = false → c ≠ "" →
      (StorageManager.get st KEY_LAST_CODE_HASH none).truthy = true →
      strictEqStr (StorageManager.get st KEY_LAST_CODE_HASH none) c = false →
      VisualizationStateManager.restoreState st (some c)
        = some { activeTab := VisualizationStateManager.activeTabValue st
                 codeHash := JsValue.jStr c
                 astData := JsValue.jUndef
                 symbolTableData := JsValue.jUndef
                 astViewState := JsValue.jUndef
                 symbolViewState := JsValue.jUndef
                 lastSaved := JsValue.jUndef })
    ∧ (VisualizationStateManager.hasCachedData st c = true →
        StorageManager.get st KEY_LAST_CODE_HASH none = JsValue.jStr c) := by
  constructor
  · intro hb hc ht hs
    have hc2 : (c != "") = true := by
      simpa using hc
    simp [VisualizationStateManager.restoreState, hb, hc2, ht, hs]
  · intro h
    have h1 := (Bool.and_eq_true _ _).mp h
    have h2 : (StorageManager.get st KEY_LAST_CODE_HASH none == JsValue.jStr c) = true := h1.1
    exact eq_of_beq h2

/-- C9 witness: the amended statement applied to `freshHashStore` with
current hash "new" differing from the stored "old". -/
theorem restoreState_no_stale_data_witness :
    VisualizationStateManager.restoreState freshHashStore (some "new")
      = some { activeTab := VisualizationStateManager.activeTabValue freshHashStore
               codeHash := JsValue.jStr "new"
               astData := JsValue.jUndef
               symbolTableData := JsValue.jUndef
               astViewState := JsValue.jUndef
               symbolViewState := JsValue.jUndef
               lastSaved := JsValue.jUndef } :=
  (restoreState_no_stale_data freshHashStore "new").1 rfl (by decide) (by decide) (by decide)

/-- C10 counterexample: with an empty store and the provided default value
`false`, get returns JS null rather than the provided default, because the
source computes `defaultValue || null` and `false` is falsy. -/
theorem storage_get_default_counterexample :
    StorageManager.get emptyStore "k" (some (JsValue.jBool false)) = JsValue.jNull
    ∧ JsValue.jNull ≠ JsValue.jBool false := by
  decide

/-- C10 amended: set and get never throw (they are total); set succeeds
exactly when serialization and the backing store both work and leaves the
store untouched on failure; get returns the parsed stored value when the
cell is present and parseable, and otherwise returns the provided default
when that default is truthy and JS null otherwise (`defaultValue || null`),
also when no default is given. -/
theorem storage_set_get_semantics (st : Store) (k : String) (v : JsValue)
    (d : Option JsValue) :
    ((StorageManager.set st k v).1 = ((stringifyJs v).isSome && !st.broken))
    ∧ ((StorageManager.set st k v).1 = false → (StorageManager.set st k v).2 = st)
    ∧ (∀ w, st.getItem k = some (RawItem.ok w) → StorageManager.get st k d = w)
    ∧ (st.getItem k = none → StorageManager.get st k d = jsOrNull d)
    ∧ (∀ s, st.getItem k = some (RawItem.bad s) → StorageManager.get st k d = jsOrNull d) := by
  refine ⟨?_, ?_, ?_, ?_, ?_⟩
  · unfold StorageManager.set
    cases h : stringifyJs v with
    | none => simp
    | some r =>
      cases hb : st.broken <;> simp [hb]
  · unfold StorageManager.set
    cases h : stringifyJs v with
    | none => simp
    | some r =>
      cases hb : st.broken <;> simp [hb]
  · intro w hw
    simp [StorageManager.get, hw, parseRaw]
  · intro hn
    simp [StorageManager.get, hn]
  · intro s hs
    simp [StorageManager.get, hs, parseRaw]

/-- C10 witness: the amended get semantics applied to a concrete store
holding a parseable cell. -/
theorem storage_set_get_semantics_witness :
    StorageManager.get oneCellStore "k" (some JsValue.jNull) = JsValue.jStr "hello" :=
  (storage_set_get_semantics oneCellStore "k" JsValue.jNull (some JsValue.jNull)).2.2.1
    (JsValue.jStr "hello") (by decide)

/-! Claims about the spec-modelled engine. -/

/-- Sorting a list equal up to permutation gives the same canonical flag
list. -/
theorem canonicalFlags_perm {f g : List String} (h : f.Perm g) :
    canonicalFlags f = canonicalFlags g :=
  List.eq_of_perm_of_sorted
    ((List.perm_insertionSort _ f).trans (h.trans (List.perm_insertionSort _ g).symm))
    (List.sorted_insertionSort _ f) (List.sorted_insertionSort _ g)

/-- C4: Fingerprint is a pure function — repeated calls on the same
arguments give equal digests — and flags are canonicalized by sorting
before hashing, so any permutation of the flag set fingerprints
identically. -/
theorem fingerprint_deterministic_and_canonical (s : String) (f g : List String)
    (h : f.Perm g) :
    fingerprint s f = fingerprint s f ∧ fingerprint s f = fingerprint s g := by
  refine ⟨rfl, ?_⟩
  unfold fingerprint
  rw [canonicalFlags_perm h]

/-- C4 witness: the two orders of a concrete two-flag set fingerprint
identically. -/
theorem fingerprint_canonical_witness :
    fingerprint "print(x)" ["use_llm", "use_cache"]
      = fingerprint "print(x)" ["use_cache", "use_llm"] :=
  (fingerprint_deterministic_and_canonical "print(x)" ["use_llm", "use_cache"]
    ["use_cache", "use_llm"] (by decide)).2

/-- C7: for the program `def f(a):\n    return a + b` the unresolved list
contains exactly the identifier b; neither the parameter a nor the
function name f appears in it. -/
theorem scope_resolution_example :
    (staticAnalyze exampleProgram).map Prod.fst = ["b"]
    ∧ ((staticAnalyze exampleProgram).map Prod.fst).contains "a" = false
    ∧ ((staticAnalyze exampleProgram).map Prod.fst).contains "f" = false := by
  decide

/-- C6: the malformed object with single quotes, a bare key and a trailing
comma is repaired and parsed by stages 2+3 into the mapping x:int, y:str
with external-inference provenance; the entirely non-JSON sentence is
recovered by stage 4 as string/integer assertions for x and y with
fallback-heuristic provenance. -/
theorem interpreter_repair_and_fallback_examples :
    interpret rawStructuredExample
      = InterpretResult.structured
          [{ identifier := "x", inferredType := "int",
             confidence := defaultExternalConfidence, explanation := none,
             provenance := Provenance.externalInference },
           { identifier := "y", inferredType := "str",
             confidence := defaultExternalConfidence, explanation := none,
             provenance := Provenance.externalInference }]
    ∧ interpret rawFallbackExample
      = InterpretResult.fallback
          [{ identifier := "x", inferredType := "string",
             confidence := fallbackConfidence, explanation := none,
             provenance := Provenance.fallbackHeuristic },
           { identifier := "y", inferredType := "integer",
             confidence := fallbackConfidence, explanation := none,
             provenance := Provenance.fallbackHeuristic }] := by
  decide

/-- Stage 3 only ever reports success with a non-empty assertion list. -/
theorem stage3_some_nonempty {cs : List Char} {l : List TypeAssertion}
    (h : stage3 cs = some l) : l.isEmpty = false := by
  unfold stage3 at h
  cases hp : parseJson cs with
  | none => rw [hp] at h; exact absurd h (by simp)
  | some obj =>
    rw [hp] at h
    dsimp at h
    split at h
    · exact absurd h (by simp)
    · next hne =>
        cases h
        simp only [Bool.not_eq_true] at hne
        exact hne

/-- C5: the ResponseInterpreter never raises past its boundary: for every
raw input it returns either a non-empty assertion list or an explicit
failure marker with a non-empty diagnostic reason (totality of `interpret`
embeds freedom from exceptions). -/
theorem interpreter_boundary_guarantee (raw : String) :
    resultWellFormed (interpret raw) = true := by
  unfold interpret
  cases h : stage3 (repair (extractCandidate raw)) with
  | some l =>
    have := stage3_some_nonempty h
    simp [resultWellFormed, this]
  | none =>
    dsimp
    split
    · decide
    · next hne =>
        simp only [Bool.not_eq_true] at hne
        simp [resultWellFormed, hne]

/-- C5 witness: the boundary guarantee evaluated on a reply that matches
no pattern at all. -/
theorem interpreter_boundary_guarantee_witness :
    resultWellFormed (interpret "total nonsense") = true :=
  interpreter_boundary_guarantee "total nonsense"

/-- C2: a second Analyze call with an identical (code, flags) pair is a
cache hit: it reports cached = true and returns an AnalysisResult equal to
the one of the first call. -/
theorem analyze_cache_correctness (parse : String → Option PyStmt)
    (infer : String → Option String) (st : SysState) (code : String)
    (flags : List String) :
    (analyze parse infer (analyze parse infer st code flags).2 code flags).1.cached = true
    ∧ (analyze parse infer (analyze parse infer st code flags).2 code flags).1.result
      = (analyze parse infer st code flags).1.result := by
  unfold analyze
  cases h : cacheLookup st.cache (fingerprint code flags) with
  | some r => simp [h]
  | none =>
    simp only [h]
    simp [cacheLookup, List.find?]

/-- C2 witness: the cache-hit behavior at concrete arguments. -/
theorem analyze_cache_correctness_witness :
    (analyze (fun _ => none) (fun _ => none)
      (analyze (fun _ => none) (fun _ => none) ⟨[], []⟩ "z" []).2 "z" []).1.cached = true :=
  (analyze_cache_correctness (fun _ => none) (fun _ => none) ⟨[], []⟩ "z" []).1

/-- C3: once a successful external inference has been recorded for a
context signature, resolving a structurally identical unresolved
identifier (any name whose context has the same signature) whose stored
pattern sits at or above the reuse threshold produces a memory-provenance
assertion and performs zero external calls. -/
theorem memory_reuse_no_external_call (ms : MemoryStore) (ty ctx1 ctx2 ident2 : String)
    (conf : ℚ) (infer : String → Option String) (p : MemoryPattern)
    (hsig : signatureOf ctx2 = signatureOf ctx1)
    (hlook : lookupPattern (recordPattern ms (signatureOf ctx1) ty conf)
      (signatureOf ctx1) = some p)
    (hth : reuseThreshold ≤ p.confidence) :
    (resolveIdentifier (recordPattern ms (signatureOf ctx1) ty conf)
        infer ident2 ctx2).externalCalls = 0
    ∧ ∃ a, (resolveIdentifier (recordPattern ms (signatureOf ctx1) ty conf)
        infer ident2 ctx2).assertion = some a ∧ a.provenance = Provenance.memory := by
  unfold resolveIdentifier
  rw [hsig]
  simp only [hlook]
  rw [if_pos hth]
  exact ⟨rfl, _, rfl, rfl⟩

/-- C3 witness: recording one inference for the snippet "a + b" and then
resolving "d" in the structurally identical snippet "c + d" uses memory
and makes no external call. -/
theorem memory_reuse_no_external_call_witness :
    (resolveIdentifier (recordPattern [] (signatureOf "a + b") "int" (mkRat 9 10))
      (fun _ => none) "d" "c + d").externalCalls = 0 :=
  (memory_reuse_no_external_call [] "int" "a + b" "c + d" "d" (mkRat 9 10)
    (fun _ => none) { signature := "ID0 + ID1", inferredType := "int",
                      confidence := mkRat 9 10, hitCount := 1 }
    (by decide) (by decide) (by decide)).1

/-- The clamped confidence always lies in [0,1]. -/
theorem clamp01_bounds (c : ℚ) : 0 ≤ clamp01 c ∧ clamp01 c ≤ 1 := by
  unfold clamp01
  exact ⟨le_max_left 0 _, max_le (by norm_num) (min_le_left 1 c)⟩

/-- The confidence attached by stage 3 lies in [0,1]. -/
theorem confidenceOf_bounds (obj : Json) :
    0 ≤ confidenceOf obj ∧ confidenceOf obj ≤ 1 := by
  unfold confidenceOf
  split
  · exact clamp01_bounds _
  · decide

/-- Every assertion reported by stage 3 has its confidence in [0,1]. -/
theorem stage3_confidence_bounds {cs : List Char} {l : List TypeAssertion}
    (h : stage3 cs = some l) :
    ∀ a ∈ l, 0 ≤ a.confidence ∧ a.confidence ≤ 1 := by
  unfold stage3 at h
  cases hp : parseJson cs with
  | none => rw [hp] at h; exact absurd h (by simp)
  | some obj =>
    rw [hp] at h
    dsimp at h
    split at h
    · exact absurd h (by simp)
    · cases h
      intro a ha
      obtain ⟨p, _, hpa⟩ := List.mem_filterMap.mp ha
      cases hj : p.2 with
      | jstr ty =>
        rw [hj] at hpa
        injection hpa with h2
        rw [← h2]
        exact confidenceOf_bounds obj
      | jnum q => rw [hj] at hpa; exact absurd hpa (by simp)
      | jbool b => rw [hj] at hpa; exact absurd hpa (by simp)
      | jnull => rw [hj] at hpa; exact absurd hpa (by simp)
      | jobj fs => rw [hj] at hpa; exact absurd hpa (by simp)

/-- Every fallback-heuristic assertion carries the fixed fallback
confidence. -/
theorem fallback_confidence_fixed {raw : String} {a : TypeAssertion}
    (h : a ∈ fallbackAssertions raw) : a.confidence = fallbackConfidence := by
  unfold fallbackAssertions at h
  obtain ⟨l, hl, hal⟩ := List.mem_flatten.mp h
  obtain ⟨line, _, rfl⟩ := List.mem_map.mp hl
  obtain ⟨p, _, rfl⟩ := List.mem_map.mp hal
  rfl

/-- Every assertion emitted by the interpreter (external-inference and
fallback-heuristic paths) has its confidence in [0,1]. -/
theorem interpret_confidence_bounds (raw : String) :
    ∀ a ∈ assertionsOf (interpret raw), 0 ≤ a.confidence ∧ a.confidence ≤ 1 := by
  unfold interpret
  cases h : stage3 (repair (extractCandidate raw)) with
  | some l => exact stage3_confidence_bounds h
  | none =>
    dsimp
    split
    · intro a ha; exact absurd ha (by simp [assertionsOf])
    · intro a ha
      rw [fallback_confidence_fixed ha]
      decide

/-- A looked-up pattern is a member of the store. -/
theorem lookupPattern_mem {ms : MemoryStore} {sig : String} {p : MemoryPattern}
    (h : lookupPattern ms sig = some p) : p ∈ ms :=
  List.mem_of_find?_eq_some h

/-- The favoring weighted average of two confidences in [0,1] stays in
[0,1]. -/
theorem blendConfidence_bounds {a b : ℚ} (ha0 : 0 ≤ a) (ha1 : a ≤ 1)
    (hb0 : 0 ≤ b) (hb1 : b ≤ 1) :
    0 ≤ blendConfidence a b ∧ blendConfidence a b ≤ 1 := by
  unfold blendConfidence
  constructor
  · apply div_nonneg _ (by norm_num)
    have h1 : (0 : ℚ) ≤ max a b := le_trans ha0 (le_max_left a b)
    have h2 : (0 : ℚ) ≤ min a b := le_min ha0 hb0
    nlinarith
  · rw [div_le_one (by norm_num : (0 : ℚ) < 3)]
    have h1 : max a b ≤ 1 := max_le ha1 hb1
    have h2 : min a b ≤ 1 := le_trans (min_le_left a b) ha1
    nlinarith

/-- Recording a confidence in [0,1] keeps every stored confidence in
[0,1]. -/
theorem recordPattern_storeOK {ms : MemoryStore} {sig ty : String} {conf : ℚ}
    (hok : StoreOK ms) (h0 : 0 ≤ conf) (h1 : conf ≤ 1) :
    StoreOK (recordPattern ms sig ty conf) := by
  unfold recordPattern
  split
  · intro q hq
    obtain ⟨p, hp, rfl⟩ := List.mem_map.mp hq
    split
    · have := hok p hp
      exact blendConfidence_bounds this.1 this.2 h0 h1
    · exact hok p hp
  · intro q hq
    rcases List.mem_cons.mp hq with h | h
    · rw [h]; exact ⟨h0, h1⟩
    · exact hok q h

/-- An assertion returned by the external-inference arm has its confidence
in [0,1], because it originates from an interpreter result. -/
theorem externalResolve_confidence {ms : MemoryStore}
    {infer : String → Option String} {ident ctx sig : String}
    {a : TypeAssertion}
    (h : (externalResolve ms infer ident ctx sig).assertion = some a) :
    0 ≤ a.confidence ∧ a.confidence ≤ 1 := by
  unfold externalResolve at h
  split at h
  · exact absurd h (by simp)
  · split at h
    · next a0 hf =>
        injection h with h2
        rw [← h2]
        exact interpret_confidence_bounds _ a0 (List.mem_of_find?_eq_some hf)
    · exact absurd h (by simp)

/-- C8: every TypeAssertion emitted by any code path has its confidence in
[0,1]: assertions produced by the interpreter (external inference and
fallback heuristic), assertions produced by per-identifier resolution
(memory reuse included) from a well-formed store, and recording keeps the
store well-formed. -/
theorem confidence_bounds_all_paths :
    (∀ raw : String, ∀ a ∈ assertionsOf (interpret raw),
      0 ≤ a.confidence ∧ a.confidence ≤ 1)
    ∧ (∀ (ms : MemoryStore) (infer : String → Option String) (ident ctx : String)
        (a : TypeAssertion), StoreOK ms →
        (resolveIdentifier ms infer ident ctx).assertion = some a →
        0 ≤ a.confidence ∧ a.confidence ≤ 1)
    ∧ (∀ (ms : MemoryStore) (sig ty : String) (conf : ℚ),
        StoreOK ms → 0 ≤ conf → conf ≤ 1 →
        StoreOK (recordPattern ms sig ty conf)) := by
  refine ⟨interpret_confidence_bounds, ?_, fun _ _ _ _ => recordPattern_storeOK⟩
  intro ms infer ident ctx a hok ha
  unfold resolveIdentifier at ha
  split at ha
  · next p heq =>
      split at ha
      · injection ha with h2
        rw [← h2]
        exact hok p (lookupPattern_mem heq)
      · exact externalResolve_confidence ha
  · exact externalResolve_confidence ha

/-- C8 witness: the bound evaluated on the first fallback assertion of the
spec's stage-4 example. -/
theorem confidence_bounds_witness :
    0 ≤ fallbackConfidence ∧ fallbackConfidence ≤ 1 :=
  confidence_bounds_all_paths.1 rawFallbackExample
    { identifier := "x", inferredType := "string",
      confidence := fallbackConfidence, explanation := none,
      provenance := Provenance.fallbackHeuristic } (by decide)

/-! Single-flight registry lemmas leading to claim C1. -/

theorem regLookup_regSet_self (reg : Registry) (fp : Nat) (e : FlightEntry) :
    regLookup (regSet reg fp e) fp = some e := by
  simp [regLookup, regSet, List.find?]

theorem find_filter_ne (reg : Registry) (fp fp2 : Nat) (h : fp ≠ fp2) :
    (reg.filter (fun p => !(p.1 == fp2))).find? (fun p => p.1 == fp)
      = reg.find? (fun p => p.1 == fp) := by
  induction reg with
  | nil => rfl
  | cons a t ih =>
    by_cases h2 : a.1 = fp2
    · have e2 : (a.1 == fp2) = true := beq_iff_eq.mpr h2
      have e3 : (a.1 == fp) = false := by
        rw [beq_eq_false_iff_ne, h2]
        exact Ne.symm h
      simp [List.filter_cons, List.find?_cons, e2, e3, ih]
    · have e2 : (a.1 == fp2) = false := beq_eq_false_iff_ne.mpr h2
      by_cases h3 : a.1 = fp
      · have e3 : (a.1 == fp) = true := beq_iff_eq.mpr h3
        simp [List.filter_cons, List.find?_cons, e2, e3]
      · have e3 : (a.1 == fp) = false := beq_eq_false_iff_ne.mpr h3
        simp [List.filter_cons, List.find?_cons, e2, e3, ih]

theorem regLookup_regSet_ne (reg : Registry) (fp fp2 : Nat) (e : FlightEntry)
    (h : fp ≠ fp2) :
    regLookup (regSet reg fp2 e) fp = regLookup reg fp := by
  have e1 : (fp2 == fp) = false := beq_eq_false_iff_ne.mpr (Ne.symm h)
  simp [regLookup, regSet, List.find?_cons, e1, find_filter_ne reg fp fp2 h]


/-- A fingerprint's entry survives any admissible step; a frozen (done)
entry survives unchanged. -/
theorem step_preserves_entry {reg reg2 : Registry} {e : CacheEvent} {fp : Nat}
    (h : cacheStep reg e = some reg2) :
    (∀ ent, regLookup reg fp = some ent → ∃ ent2, regLookup reg2 fp = some ent2)
    ∧ (∀ r, regLookup reg fp = some (FlightEntry.done r) →
        regLookup reg2 fp = some (FlightEntry.done r)) := by
  cases e with
  | startCompute fp2 =>
    simp only [cacheStep] at h
    split at h
    · next hn =>
        injection h with h2
        subst h2
        by_cases hf : fp = fp2
        · subst hf
          constructor
          · intro ent hent; rw [hn] at hent; cases hent
          · intro r hent; rw [hn] at hent; cases hent
        · constructor
          · intro ent hent
            exact ⟨ent, (regLookup_regSet_ne reg fp fp2 _ hf).trans hent⟩
          · intro r hent
            exact (regLookup_regSet_ne reg fp fp2 _ hf).trans hent
    · cases h
  | finishCompute fp2 r2 =>
    simp only [cacheStep] at h
    split at h
    · next hn =>
        injection h with h2
        subst h2
        by_cases hf : fp = fp2
        · subst hf
          constructor
          · intro ent hent
            exact ⟨FlightEntry.done r2, regLookup_regSet_self reg fp _⟩
          · intro r hent
            rw [hn] at hent
            cases hent
        · constructor
          · intro ent hent
            exact ⟨ent, (regLookup_regSet_ne reg fp fp2 _ hf).trans hent⟩
          · intro r hent
            exact (regLookup_regSet_ne reg fp fp2 _ hf).trans hent
    · cases h
  | deliver i fp2 r2 =>
    simp only [cacheStep] at h
    split at h
    · split at h
      · injection h with h2
        subst h2
        exact ⟨fun ent hent => ⟨ent, hent⟩, fun r hent => hent⟩
      · cases h
    · cases h

/-- A step that is not a start for `fp` keeps an absent entry absent. -/
theorem step_preserves_none {reg reg2 : Registry} {e : CacheEvent} {fp : Nat}
    (h : cacheStep reg e = some reg2) (hn : regLookup reg fp = none)
    (hs : ∀ x, e = CacheEvent.startCompute x → x ≠ fp) :
    regLookup reg2 fp = none := by
  cases e with
  | startCompute fp2 =>
    have hf : fp ≠ fp2 := fun hh => (hs fp2 rfl) (hh.symm) -- fp2 ≠ fp from hs
    simp only [cacheStep] at h
    split at h
    · injection h with h2
      subst h2
      rw [regLookup_regSet_ne reg fp fp2 _ hf]
      exact hn
    · cases h
  | finishCompute fp2 r2 =>
    simp only [cacheStep] at h
    split at h
    · next hent =>
        injection h with h2
        subst h2
        by_cases hf : fp = fp2
        · subst hf; rw [hn] at hent; cases hent
        · rw [regLookup_regSet_ne reg fp fp2 _ hf]; exact hn
    · cases h
  | deliver i fp2 r2 =>
    simp only [cacheStep] at h
    split at h
    · split at h
      · injection h with h2; subst h2; exact hn
      · cases h
    · cases h


/-- In any admissible trace, no compute starts for a fingerprint that
already has a registry entry. -/
theorem trace_no_start_of_entry {tr : List CacheEvent} :
    ∀ {reg reg2 : Registry} {fp : Nat} {ent : FlightEntry},
    runTrace reg tr = some reg2 → regLookup reg fp = some ent →
    countStarts fp tr = 0 := by
  induction tr with
  | nil => intro reg reg2 fp ent _ _; rfl
  | cons e tr ih =>
    intro reg reg2 fp ent hrun hent
    simp only [runTrace] at hrun
    cases hstep : cacheStep reg e with
    | none => rw [hstep] at hrun; cases hrun
    | some regMid =>
      rw [hstep] at hrun
      obtain ⟨ent2, hent2⟩ := (step_preserves_entry hstep).1 ent hent
      have htail := ih hrun hent2
      have hsame : countStarts fp (e :: tr) = countStarts fp tr := by
        cases e with
        | startCompute fp2 =>
          have hf2 : (fp2 == fp) = false := by
            simp only [cacheStep] at hstep
            split at hstep
            · next hn =>
                by_cases hf : fp2 = fp
                · subst hf; rw [hent] at hn; exact absurd hn (by simp)
                · exact beq_eq_false_iff_ne.mpr hf
            · cases hstep
          simp [countStarts, List.countP_cons, hf2]
        | finishCompute fp2 r => simp [countStarts, List.countP_cons]
        | deliver i fp2 r => simp [countStarts, List.countP_cons]
      exact hsame.trans htail

/-- From a state with no entry for the fingerprint, a trace starts the
compute at most once. -/
theorem trace_start_le_one {tr : List CacheEvent} :
    ∀ {reg reg2 : Registry} {fp : Nat},
    runTrace reg tr = some reg2 → regLookup reg fp = none →
    countStarts fp tr ≤ 1 := by
  induction tr with
  | nil => intro reg reg2 fp _ _; exact Nat.zero_le 1
  | cons e tr ih =>
    intro reg reg2 fp hrun hn
    simp only [runTrace] at hrun
    cases hstep : cacheStep reg e with
    | none => rw [hstep] at hrun; cases hrun
    | some regMid =>
      rw [hstep] at hrun
      by_cases hs : e = CacheEvent.startCompute fp
      · subst hs
        simp only [cacheStep] at hstep
        split at hstep
        · injection hstep with h2
          subst h2
          have hmid : regLookup (regSet reg fp FlightEntry.inflight) fp
              = some FlightEntry.inflight := regLookup_regSet_self reg fp _
          have htail := trace_no_start_of_entry hrun hmid
          have hone : countStarts fp (CacheEvent.startCompute fp :: tr)
              = countStarts fp tr + 1 := by
            simp [countStarts, List.countP_cons]
          rw [hone, htail]
        · cases hstep
      · have hnotstart : ∀ x, e = CacheEvent.startCompute x → x ≠ fp := by
          intro x hx hxf
          exact hs (by rw [hx, hxf])
        have hmid := step_preserves_none hstep hn hnotstart
        have htail := ih hrun hmid
        have hsame : countStarts fp (e :: tr) = countStarts fp tr := by
          cases e with
          | startCompute fp2 =>
            have hf2 : (fp2 == fp) = false :=
              beq_eq_false_iff_ne.mpr (hnotstart fp2 rfl)
            simp [countStarts, List.countP_cons, hf2]
          | finishCompute fp2 r => simp [countStarts, List.countP_cons]
          | deliver i fp2 r => simp [countStarts, List.countP_cons]
        rw [hsame]
        exact htail

/-- Once the registry has frozen a result for a fingerprint, every later
delivery for it carries exactly that result. -/
theorem trace_deliver_of_done {tr : List CacheEvent} :
    ∀ {reg reg2 : Registry} {fp : Nat} {r0 : AnalysisResult},
    runTrace reg tr = some reg2 → regLookup reg fp = some (FlightEntry.done r0) →
    ∀ i r, CacheEvent.deliver i fp r ∈ tr → r = r0 := by
  induction tr with
  | nil => intro reg reg2 fp r0 _ _ i r hmem; cases hmem
  | cons e tr ih =>
    intro reg reg2 fp r0 hrun hdone i r hmem
    simp only [runTrace] at hrun
    cases hstep : cacheStep reg e with
    | none => rw [hstep] at hrun; cases hrun
    | some regMid =>
      rw [hstep] at hrun
      have hmid := (step_preserves_entry hstep).2 r0 hdone
      rcases List.mem_cons.mp hmem with hhead | htail
      · subst hhead
        simp only [cacheStep] at hstep
        rw [hdone] at hstep
        dsimp at hstep
        split at hstep
        · next hr => exact hr.symm
        · cases hstep
      · exact ih hrun hmid i r htail


/-- From a state where the fingerprint has no frozen result yet, any two
deliveries for it within one admissible trace agree. -/
theorem trace_delivers_agree {tr : List CacheEvent} :
    ∀ {reg reg2 : Registry} {fp : Nat},
    runTrace reg tr = some reg2 →
    (regLookup reg fp = none ∨ regLookup reg fp = some FlightEntry.inflight) →
    ∀ i r j r2, CacheEvent.deliver i fp r ∈ tr →
      CacheEvent.deliver j fp r2 ∈ tr → r = r2 := by
  induction tr with
  | nil => intro reg reg2 fp _ _ i r j r2 hm; cases hm
  | cons e tr ih =>
    intro reg reg2 fp hrun hst i r j r2 hm1 hm2
    simp only [runTrace] at hrun
    cases hstep : cacheStep reg e with
    | none => rw [hstep] at hrun; cases hrun
    | some regMid =>
      rw [hstep] at hrun
      have hnotdeliver : ∀ i0 r0, e = CacheEvent.deliver i0 fp r0 → False := by
        intro i0 r0 he
        subst he
        simp only [cacheStep] at hstep
        rcases hst with hn | hi
        · rw [hn] at hstep; cases hstep
        · rw [hi] at hstep; cases hstep
      cases e with
      | startCompute fp2 =>
        have hm1t : CacheEvent.deliver i fp r ∈ tr := by
          rcases List.mem_cons.mp hm1 with hh | ht
          · cases hh
          · exact ht
        have hm2t : CacheEvent.deliver j fp r2 ∈ tr := by
          rcases List.mem_cons.mp hm2 with hh | ht
          · cases hh
          · exact ht
        by_cases hf : fp2 = fp
        · subst hf
          simp only [cacheStep] at hstep
          split at hstep
          · injection hstep with h2
            subst h2
            exact ih hrun (Or.inr (regLookup_regSet_self reg fp2 _)) i r j r2 hm1t hm2t
          · cases hstep
        · simp only [cacheStep] at hstep
          split at hstep
          · injection hstep with h2
            subst h2
            have hpres := regLookup_regSet_ne reg fp fp2 FlightEntry.inflight
              (fun hh => hf hh.symm)
            rcases hst with hn | hi
            · exact ih hrun (Or.inl (hpres.trans hn)) i r j r2 hm1t hm2t
            · exact ih hrun (Or.inr (hpres.trans hi)) i r j r2 hm1t hm2t
          · cases hstep
      | finishCompute fp2 rf =>
        have hm1t : CacheEvent.deliver i fp r ∈ tr := by
          rcases List.mem_cons.mp hm1 with hh | ht
          · cases hh
          · exact ht
        have hm2t : CacheEvent.deliver j fp r2 ∈ tr := by
          rcases List.mem_cons.mp hm2 with hh | ht
          · cases hh
          · exact ht
        by_cases hf : fp2 = fp
        · subst hf
          simp only [cacheStep] at hstep
          split at hstep
          · injection hstep with h2
            subst h2
            have hdone : regLookup (regSet reg fp2 (FlightEntry.done rf)) fp2
                = some (FlightEntry.done rf) := regLookup_regSet_self reg fp2 _
            have e1 := trace_deliver_of_done hrun hdone i r hm1t
            have e2 := trace_deliver_of_done hrun hdone j r2 hm2t
            rw [e1, e2]
          · cases hstep
        · simp only [cacheStep] at hstep
          split at hstep
          · injection hstep with h2
            subst h2
            have hpres := regLookup_regSet_ne reg fp fp2 (FlightEntry.done rf)
              (fun hh => hf hh.symm)
            rcases hst with hn | hi
            · exact ih hrun (Or.inl (hpres.trans hn)) i r j r2 hm1t hm2t
            · exact ih hrun (Or.inr (hpres.trans hi)) i r j r2 hm1t hm2t
          · cases hstep
      | deliver i0 fp2 r0 =>
        have hf : fp2 ≠ fp := by
          intro hh
          subst hh
          exact hnotdeliver i0 r0 rfl
        have hm1t : CacheEvent.deliver i fp r ∈ tr := by
          rcases List.mem_cons.mp hm1 with hh | ht
          · injection hh with hi1 hf1 hr1; exact absurd hf1.symm hf
          · exact ht
        have hm2t : CacheEvent.deliver j fp r2 ∈ tr := by
          rcases List.mem_cons.mp hm2 with hh | ht
          · injection hh with hi1 hf1 hr1; exact absurd hf1.symm hf
          · exact ht
        simp only [cacheStep] at hstep
        split at hstep
        · split at hstep
          · injection hstep with h2
            subst h2
            exact ih hrun hst i r j r2 hm1t hm2t
          · cases hstep
        · cases hstep

/-- From a state with no entry for the fingerprint, any delivery for it in
an admissible trace implies the compute was started in that trace. -/
theorem trace_deliver_needs_start {tr : List CacheEvent} :
    ∀ {reg reg2 : Registry} {fp : Nat},
    runTrace reg tr = some reg2 → regLookup reg fp = none →
    ∀ i r, CacheEvent.deliver i fp r ∈ tr → 1 ≤ countStarts fp tr := by
  induction tr with
  | nil => intro reg reg2 fp _ _ i r hm; cases hm
  | cons e tr ih =>
    intro reg reg2 fp hrun hn i r hm
    simp only [runTrace] at hrun
    cases hstep : cacheStep reg e with
    | none => rw [hstep] at hrun; cases hrun
    | some regMid =>
      rw [hstep] at hrun
      by_cases hs : e = CacheEvent.startCompute fp
      · subst hs
        have hone : countStarts fp (CacheEvent.startCompute fp :: tr)
            = countStarts fp tr + 1 := by
          simp [countStarts, List.countP_cons]
        rw [hone]
        exact Nat.le_add_left 1 _
      · have hnotstart : ∀ x, e = CacheEvent.startCompute x → x ≠ fp := by
          intro x hx hxf
          exact hs (by rw [hx, hxf])
        have hmid := step_preserves_none hstep hn hnotstart
        have hmt : CacheEvent.deliver i fp r ∈ tr := by
          rcases List.mem_cons.mp hm with hh | ht
          · exfalso
            subst hh
            simp only [cacheStep] at hstep
            rw [hn] at hstep
            cases hstep
          · exact ht
        have htail := ih hrun hmid i r hmt
        have hsame : countStarts fp (e :: tr) = countStarts fp tr := by
          cases e with
          | startCompute fp2 =>
            have hf2 : (fp2 == fp) = false :=
              beq_eq_false_iff_ne.mpr (hnotstart fp2 rfl)
            simp [countStarts, List.countP_cons, hf2]
          | finishCompute fp2 rr => simp [countStarts, List.countP_cons]
          | deliver i2 fp2 rr => simp [countStarts, List.countP_cons]
        rw [hsame]
        exact htail

/-- C1: single-flight coalescing.  In every admissible interleaving of
concurrent callers started from a cold registry, the expensive compute
path for a fingerprint starts at most once; if any caller is delivered a
result for that fingerprint, the compute started exactly once (at least
once, hence exactly once by the bound); and all callers delivered for the
fingerprint receive the same result — the first caller's computation. -/
theorem single_flight_coalescing (fp : Nat) (tr : List CacheEvent)
    (reg2 : Registry) (hrun : runTrace [] tr = some reg2) :
    countStarts fp tr ≤ 1
    ∧ (∀ i r, CacheEvent.deliver i fp r ∈ tr → 1 ≤ countStarts fp tr)
    ∧ (∀ i r j r2, CacheEvent.deliver i fp r ∈ tr →
        CacheEvent.deliver j fp r2 ∈ tr → r = r2) :=
  ⟨trace_start_le_one hrun rfl,
   fun i r hm => trace_deliver_needs_start hrun rfl i r hm,
   fun i r j r2 h1 h2 => trace_delivers_agree hrun (Or.inl rfl) i r j r2 h1 h2⟩

/-- C1 witness: the concrete interleaving `coalesceTrace` (one start, one
finish, two deliveries) is admissible from the cold registry, starts the
compute exactly once, and both deliveries agree. -/
theorem single_flight_coalescing_witness :
    countStarts 7 coalesceTrace ≤ 1
    ∧ 1 ≤ countStarts 7 coalesceTrace
    ∧ emptyResult = emptyResult :=
  ⟨(single_flight_coalescing 7 coalesceTrace
      [(7, FlightEntry.done emptyResult)] (by decide)).1,
   (single_flight_coalescing 7 coalesceTrace
      [(7, FlightEntry.done emptyResult)] (by decide)).2.1 0 emptyResult (by decide),
   (single_flight_coalescing 7 coalesceTrace
      [(7, FlightEntry.done emptyResult)] (by decide)).2.2 0 emptyResult 1 emptyResult
      (by decide) (by decide)⟩

end TypeSage
